import Mathlib

/-!
Verification of the inventory replenishment agent (agent.py, llm.py,
inventory.py, state.py) against its natural-language specification.

The program is shallowly embedded: the external collaborators (the SQLite
stores, the remote selection service, the random sampler and the JSON state
file) appear as explicit inputs, and every deterministic piece of the source
is translated function by function.
-/

/-! ## Python string comparison

Python compares `str` values lexicographically by Unicode code point
(`agent.py` line 100 evaluates `last_cycle_date > current_date` this way).
`pyStrLt a b` is Python's `a < b`. -/

def pyLtChars : List Char → List Char → Bool
  | [], [] => false
  | [], _ :: _ => true
  | _ :: _, [] => false
  | a :: as, b :: bs =>
    if a.toNat < b.toNat then true
    else if b.toNat < a.toNat then false
    else pyLtChars as bs

def pyStrLt (a b : String) : Bool := pyLtChars a.data b.data

def pyStrLe (a b : String) : Bool := !(pyStrLt b a)

/-! ## ISO dates

`agent.py` lines 125-127 parse the two cursors with `date.fromisoformat`
(strict `YYYY-MM-DD`) and take the difference in days.  `toOrdinal` follows
CPython's `date.toordinal`: the proleptic Gregorian ordinal, day 1 being
0001-01-01. -/

def isDigitChar (c : Char) : Bool := 48 ≤ c.toNat && c.toNat ≤ 57

def digitVal (c : Char) : Nat := c.toNat - 48

def isLeap (y : Nat) : Bool := (y % 4 = 0 && y % 100 ≠ 0) || y % 400 = 0

def daysInMonth (y m : Nat) : Nat :=
  if m = 2 then (if isLeap y then 29 else 28)
  else if m = 4 ∨ m = 6 ∨ m = 9 ∨ m = 11 then 30
  else 31

def daysBeforeMonth (y m : Nat) : Nat :=
  (if m = 1 then 0 else if m = 2 then 31 else if m = 3 then 59 else if m = 4 then 90
   else if m = 5 then 120 else if m = 6 then 151 else if m = 7 then 181
   else if m = 8 then 212 else if m = 9 then 243 else if m = 10 then 273
   else if m = 11 then 304 else 334)
  + (if 2 < m ∧ isLeap y then 1 else 0)

def leapsBefore (y : Nat) : Nat := y / 4 + y / 400 - y / 100

def toOrdinal : Nat × Nat × Nat → Nat
  | (y, m, d) => 365 * (y - 1) + leapsBefore (y - 1) + daysBeforeMonth y m + d

def parseDateChars : List Char → Option (Nat × Nat × Nat)
  | [y1, y2, y3, y4, h1, m1, m2, h2, d1, d2] =>
    if h1 = '-' && h2 = '-' && isDigitChar y1 && isDigitChar y2 && isDigitChar y3 &&
       isDigitChar y4 && isDigitChar m1 && isDigitChar m2 && isDigitChar d1 && isDigitChar d2 then
      let y := 1000 * digitVal y1 + 100 * digitVal y2 + 10 * digitVal y3 + digitVal y4
      let m := 10 * digitVal m1 + digitVal m2
      let d := 10 * digitVal d1 + digitVal d2
      if 1 ≤ y && 1 ≤ m && m ≤ 12 && 1 ≤ d && d ≤ daysInMonth y m then some (y, m, d)
      else none
    else none
  | _ => none

def parseDate (s : String) : Option (Nat × Nat × Nat) := parseDateChars s.data

/-- Numeric key of a parsed date: lexicographic order on (y, m, d) coincides
with order on this key because m ≤ 12 and d ≤ 31. -/
def dateKey : Nat × Nat × Nat → Nat
  | (y, m, d) => y * 10000 + m * 100 + d

/-! ## Data model

Row shapes of the two stores the agent reads, and the selection-service
response schema from `llm.py`. -/

/-- Row returned by `get_sold_cars_since` (inventory.py lines 33-49). -/
structure SoldCar where
  make : String
  model : String
  year : Int
  condition : String
  min_price : Int
  vin : String
  sale_date : String
  customer_name : String
deriving DecidableEq, Repr

/-- Row of `sim_cars` in the market-pool store (inventory.py lines 75-83);
candidate-pool entries are these rows. -/
structure SimCar where
  id : Int
  make : String
  model : String
  year : Int
  vin : String
  condition : String
  min_price : Int
  status : String
deriving DecidableEq, Repr

/-- Row of `dms_cars` as seen by `_get_vins_in_dms` (inventory.py lines 52-55). -/
structure DmsCar where
  vin : String
  status : String
deriving DecidableEq, Repr

/-- One selection in the service response (llm.py lines 12-14). -/
structure CarSelection where
  car_id : Int
  reasoning : String
deriving DecidableEq, Repr

/-- Parsed service response (llm.py lines 17-19). -/
structure OrderDecision where
  selections : List CarSelection
  strategy : String
deriving DecidableEq, Repr

/-- Persisted agent state (state.py lines 10-17): three optional date strings. -/
structure AgentState where
  sim_start_date : Option String
  last_cycle_date : Option String
  last_order_date : Option String
deriving DecidableEq, Repr

/-! ## llm.py — the correction pass

`select_replacement_cars` makes a remote call and then post-processes the
parsed response (lines 109-132).  The remote call is an external
collaborator, so the embedding takes the parsed `OrderDecision` as input and
performs exactly the deterministic correction pass of lines 109-131. -/

def syntheticReason : String := "Auto-added to meet minimum order requirement."

/-- Lines 110-116: drop selections whose `car_id` was already seen, keeping
the first occurrence. `seen` is the set accumulated so far. -/
def dedupById : List CarSelection → List Int → List CarSelection
  | [], _ => []
  | s :: rest, seen =>
    if s.car_id ∈ seen then dedupById rest seen
    else s :: dedupById rest (s.car_id :: seen)

/-- Lines 109-132 of llm.py: deduplicate, then clamp to the order bounds
(`if` the count exceeds `max_order` truncate, `elif` it is short of
`min_order` backfill from unselected candidates in pool order). -/
def select_replacement_cars (decision : OrderDecision) (candidates : List SimCar)
    (min_order max_order : Nat) : OrderDecision :=
  let unique := dedupById decision.selections []
  if max_order < unique.length then
    { decision with selections := unique.take max_order }
  else if unique.length < min_order then
    let selected_ids := unique.map (fun s => s.car_id)
    let extras := candidates.filter (fun c => decide (c.id ∉ selected_ids))
    let backfill : List CarSelection :=
      (extras.take (min_order - unique.length)).map (fun c => ⟨c.id, syntheticReason⟩)
    { decision with selections := unique ++ backfill }
  else
    { decision with selections := unique }

/-! ## inventory.py — candidate pool

`get_candidate_pool` (lines 58-98) mixes two database reads with
`random.sample`.  The stores appear as explicit row lists and the sampler as
an explicit function; `random.sample(xs, k)` is only ever called with
`k ≤ len(xs)` and returns `k` distinct elements of `xs`, which is captured by
the `SampleSub`/`SampleLen` hypotheses below. -/

/-- inventory.py lines 52-55: all VINs in the lot-inventory store, any status. -/
def dmsVins (dms : List DmsCar) : List String := dms.map (fun r => r.vin)

/-- inventory.py lines 75-86: market rows with status 'available' whose VIN is
not already on the lot. -/
def availableNotOwned (market : List SimCar) (dms : List DmsCar) : List SimCar :=
  (market.filter (fun c => c.status = "available")).filter
    (fun c => decide (c.vin ∉ dmsVins dms))

/-- inventory.py line 88: candidates matching the make of any sold car. -/
def sameMakePool (pool : List SimCar) (sold : List SoldCar) : List SimCar :=
  pool.filter (fun c => decide (c.make ∈ sold.map (fun s => s.make)))

/-- inventory.py line 89: candidates of other makes. -/
def otherPool (pool : List SimCar) (sold : List SoldCar) : List SimCar :=
  pool.filter (fun c => decide (c.make ∉ sold.map (fun s => s.make)))

/-- inventory.py lines 92-93: cap the same-make portion at 60 by sampling. -/
def cappedSameMake (sample : List SimCar → Nat → List SimCar)
    (pool : List SimCar) (sold : List SoldCar) : List SimCar :=
  let same_make := sameMakePool pool sold
  if 60 < same_make.length then sample same_make 60 else same_make

/-- inventory.py lines 58-98. `remaining_slots` is a Python `int`, hence can
be negative and is modelled as `Int`. -/
def get_candidate_pool (sample : List SimCar → Nat → List SimCar)
    (sold : List SoldCar) (dms : List DmsCar) (market : List SimCar)
    (max_candidates : Nat) : List SimCar :=
  let avail := availableNotOwned market dms
  let same_make := cappedSameMake sample avail sold
  let other := otherPool avail sold
  let remaining_slots : Int := (max_candidates : Int) - same_make.length
  let fill :=
    if 0 < remaining_slots ∧ other ≠ [] then
      sample other (min remaining_slots (other.length : Int)).toNat
    else []
  same_make ++ fill

/-- `random.sample(xs, k)` only returns elements of `xs`. -/
def SampleSub (sample : List SimCar → Nat → List SimCar) : Prop :=
  ∀ xs k c, c ∈ sample xs k → c ∈ xs

/-- `random.sample(xs, k)` returns exactly `k` elements when `k ≤ len(xs)`. -/
def SampleLen (sample : List SimCar → Nat → List SimCar) : Prop :=
  ∀ xs k, k ≤ xs.length → (sample xs k).length = k

/-- A concrete admissible sampler, used for witnesses. -/
def takeSampler (xs : List SimCar) (k : Nat) : List SimCar := xs.take k

/-! ## agent.py — the decision cycle

`InventoryAgent.on_date_change` / `_run_ordering_cycle` (agent.py lines
94-234).  The store reads (`get_sold_cars_since`, `get_candidate_pool`) and
the service call are external to one tick, so one tick's view of them is an
explicit `Env`; `save_state` calls are recorded in the `saves` list and an
uncaught Python exception (only `date.fromisoformat` can raise here) is the
`raised` flag. -/

def CYCLE_DAYS : Int := 3

def MIN_SALES_TO_ORDER : Nat := 2

/-- Outcome of the `select_replacement_cars` remote call on one tick:
the parsed decision, or any raised exception (caught at agent.py line 184). -/
inductive LLMOutcome where
  | ok (decision : OrderDecision)
  | err
deriving DecidableEq, Repr

/-- One tick's view of the external collaborators: the rows
`get_sold_cars_since` returns, the pool `get_candidate_pool` returns, and the
outcome of the service call. -/
structure Env where
  sold_cars : List SoldCar
  candidates : List SimCar
  llm : LLMOutcome
deriving DecidableEq, Repr

/-- agent.py line 174: `min_order = max(1, sold_count - 2)`. -/
def minOrder (sold_count : Nat) : Nat := max 1 (sold_count - 2)

/-- agent.py line 175: `max_order = min(sold_count + 2, len(candidates))`. -/
def maxOrder (sold_count pool_size : Nat) : Nat := min (sold_count + 2) pool_size

/-- agent.py line 195: `candidate_map = {c["id"]: c for c in candidates}` and
line 200 `candidate_map.get(sel.car_id)`; for duplicate ids a Python dict
keeps the last binding. -/
def candidateLookup (candidates : List SimCar) (i : Int) : Option SimCar :=
  candidates.reverse.find? (fun c => c.id == i)

/-- agent.py lines 199-221: the cars appended to `purchased` (those whose id
is found in the candidate map; the rest are skipped with a warning). -/
def purchasedCars (candidates : List SimCar) (sels : List CarSelection) : List SimCar :=
  sels.filterMap (fun sel => candidateLookup candidates sel.car_id)

/-- agent.py lines 146-234, `_run_ordering_cycle`.  Returns the new state, the
purchases committed to the stores this tick (empty in dry-run), and the states
passed to `save_state`. -/
def run_ordering_cycle (dry_run : Bool) (env : Env) (st : AgentState)
    (current_date : String) : AgentState × List SimCar × List AgentState :=
  let sold_count := env.sold_cars.length
  if sold_count < MIN_SALES_TO_ORDER then
    let st1 := { st with last_cycle_date := some current_date }
    (st1, [], [st1])
  else if env.candidates.isEmpty then
    let st1 := { st with last_cycle_date := some current_date }
    (st1, [], [st1])
  else
    let min_order := minOrder sold_count
    let max_order := maxOrder sold_count env.candidates.length
    match env.llm with
    | .err =>
      let st1 := { st with last_cycle_date := some current_date }
      (st1, [], [st1])
    | .ok raw =>
      let decision := select_replacement_cars raw env.candidates min_order max_order
      let purchased := purchasedCars env.candidates decision.selections
      let commits := if dry_run then [] else purchased
      let st1 :=
        if dry_run = false ∧ 0 < purchased.length then
          { st with last_order_date := some current_date,
                    last_cycle_date := some current_date }
        else
          { st with last_cycle_date := some current_date }
      (st1, commits, [st1])

/-- agent.py lines 98-101: `last_cycle_date is not None and
last_cycle_date > current_date`. -/
def staleCursor (st : AgentState) (current_date : String) : Bool :=
  match st.last_cycle_date with
  | some lc => pyStrLt current_date lc
  | none => false

/-- agent.py line 102: the reset condition. -/
def resetNeeded (st : AgentState) (current_date sim_start_date : String) : Bool :=
  !(st.sim_start_date == some sim_start_date) || staleCursor st current_date

/-- agent.py lines 117-121: the freshly reset state. -/
def resetState (sim_start_date : String) : AgentState :=
  ⟨some sim_start_date, some sim_start_date, some sim_start_date⟩

/-- The state after the reset block of `on_date_change` (lines 97-122). -/
def afterReset (st : AgentState) (current_date sim_start_date : String) : AgentState :=
  if resetNeeded st current_date sim_start_date then resetState sim_start_date else st

/-- Result of one `on_date_change` tick. -/
structure TickResult where
  state : AgentState
  commits : List SimCar
  saves : List AgentState
  raised : Bool
deriving DecidableEq, Repr

/-- agent.py lines 94-142, `on_date_change`.  After the reset block, lines
125-126 call `date.fromisoformat` on `last_cycle_date` and `current_date`;
a `None` cursor or a non-ISO string raises out of the method (the state
already mutated by the reset block is kept, as in the source). -/
def on_date_change (dry_run : Bool) (env : Env) (st : AgentState)
    (current_date sim_start_date : String) : TickResult :=
  let r := resetNeeded st current_date sim_start_date
  let st1 := afterReset st current_date sim_start_date
  let saves0 : List AgentState := if r then [st1] else []
  match st1.last_cycle_date with
  | none => ⟨st1, [], saves0, true⟩
  | some lc =>
    match parseDate lc, parseDate current_date with
    | some p1, some p2 =>
      let days_elapsed : Int := (toOrdinal p2 : Int) - (toOrdinal p1 : Int)
      if days_elapsed < CYCLE_DAYS then ⟨st1, [], saves0, false⟩
      else
        let res := run_ordering_cycle dry_run env st1 current_date
        ⟨res.1, res.2.1, saves0 ++ res.2.2, false⟩
    | _, _ => ⟨st1, [], saves0, true⟩

/-- States reachable from the blank initial state (what `load_state` yields on
first run) by any sequence of ticks whose `current_date` is a valid ISO date
string. -/
inductive Reachable : AgentState → Prop where
  | init : Reachable ⟨none, none, none⟩
  | step (dry_run : Bool) (env : Env) (st : AgentState)
      (current_date sim_start_date : String) (hst : Reachable st)
      (hcur : (parseDate current_date).isSome) :
      Reachable (on_date_change dry_run env st current_date sim_start_date).state

/-- Order on optional cursors, by Python string comparison; `none` is the
blank cursor and only comparable to itself. -/
def optCursorLe : Option String → Option String → Bool
  | none, none => true
  | some a, some b => pyStrLe a b
  | _, _ => false

/-! ## state.py — persistence

`load_state` (state.py lines 20-31).  The file contents are modelled as
either absent, unparseable, or a parsed JSON value; `json.load` gives a
Python object on which `.get` is attempted.  A JSON object's duplicate keys
collapse to the last occurrence, and a missing key yields `None` (merged with
JSON `null`, which `json.load` also returns as `None`). -/

inductive Json where
  | null
  | bool (b : Bool)
  | num (n : Int)
  | str (s : String)
  | arr (elems : List Json)
  | obj (fields : List (String × Json))

/-- Contents of the state file as seen by `load_state`. -/
inductive StateFile where
  | absent
  | corrupt
  | valid (j : Json)

/-- What Python builds from the loaded dict: a dataclass whose three fields
hold whatever `data.get` returned, unvalidated. -/
structure LoadedState where
  sim_start_date : Json
  last_cycle_date : Json
  last_order_date : Json

/-- Result of `load_state`: a state, or an uncaught exception. -/
inductive LoadResult where
  | ok (s : LoadedState)
  | raised

/-- Python `dict.get(k)` on a dict built from a JSON object: last duplicate
key wins, missing key gives `None`. -/
def pyDictGet (fields : List (String × Json)) (k : String) : Json :=
  match fields.reverse.find? (fun p => p.1 == k) with
  | some p => p.2
  | none => Json.null

/-- state.py lines 20-31.  `FileNotFoundError` and `JSONDecodeError` are
caught and give the blank state; `data.get(...)` on a non-dict raises
`AttributeError`, which is not in the caught tuple. -/
def load_state : StateFile → LoadResult
  | .absent => .ok ⟨.null, .null, .null⟩
  | .corrupt => .ok ⟨.null, .null, .null⟩
  | .valid (.obj fields) =>
    .ok ⟨pyDictGet fields "sim_start_date",
         pyDictGet fields "last_cycle_date",
         pyDictGet fields "last_order_date"⟩
  | .valid _ => .raised

/-! ## Spec-side definitions

Definitions transcribed from the specification's own words (§4.4, §4.5,
§4.1), used to compare the source functions against the spec's description. -/

/-- Modelled from the spec (§4.5): "Deduplicate selections by candidate id,
preserving first occurrence", written as a left fold that appends a selection
only when its id is not yet present. -/
def specDedupStep (acc : List CarSelection) (s : CarSelection) : List CarSelection :=
  if acc.any (fun t => t.car_id == s.car_id) then acc else acc ++ [s]

def specDedup (sels : List CarSelection) : List CarSelection :=
  sels.foldl specDedupStep []

/-- Modelled from the spec (§4.1): a field lookup in which each binding seen
later overrides the earlier ones and an absent field defaults, so every field
of the loaded state is defaulted individually. -/
def specFieldGet (fields : List (String × Json)) (k : String) : Json :=
  (fields.foldl (fun acc p => if p.1 = k then some p.2 else acc) none).getD Json.null

/-! ## Concrete fixtures for witnesses and counterexamples -/

def blankState : AgentState := ⟨none, none, none⟩

def envNone : Env := ⟨[], [], .err⟩

def soldFixture : SoldCar :=
  ⟨"Honda", "Civic", 2021, "used", 18000, "VINSOLD1", "2026-01-02", "B. Buyer"⟩

def candFixture (i : Int) : SimCar :=
  ⟨i, "Honda", "Accord", 2022, "VINC", "new", 26000, "available"⟩

def otherMakeFixture (i : Int) : SimCar :=
  ⟨i, "Toyota", "Camry", 2022, "VINT", "new", 25000, "available"⟩

/-- 61 same-make market rows, enough to trigger the 60-cap sampling. -/
def bigMarket : List SimCar := (List.range 61).map (fun i => candFixture i)

/-! ## Lemmas: Python string order -/

theorem pyLtChars_cons (x y : Char) (xs ys : List Char) :
    pyLtChars (x :: xs) (y :: ys) =
      if x.toNat < y.toNat then true
      else if y.toNat < x.toNat then false
      else pyLtChars xs ys := rfl

theorem pyLtChars_irrefl (l : List Char) : pyLtChars l l = false := by
  induction l with
  | nil => rfl
  | cons a as ih => simp [pyLtChars_cons, ih]

theorem pyLtChars_false_trans {a b c : List Char} (hab : pyLtChars a b = false)
    (hbc : pyLtChars b c = false) : pyLtChars a c = false := by
  induction a generalizing b c with
  | nil =>
    cases b with
    | nil =>
      cases c with
      | nil => rfl
      | cons z zs => simp [pyLtChars] at hbc
    | cons y ys => simp [pyLtChars] at hab
  | cons x xs ih =>
    cases c with
    | nil => rfl
    | cons z zs =>
      cases b with
      | nil => simp [pyLtChars] at hbc
      | cons y ys =>
        rw [pyLtChars_cons] at hab hbc ⊢
        by_cases hxy : x.toNat < y.toNat
        · simp [hxy] at hab
        · by_cases hyz : y.toNat < z.toNat
          · simp [hyz] at hbc
          · have hxz : ¬ x.toNat < z.toNat := by omega
            by_cases hyx : y.toNat < x.toNat
            · have hzx : z.toNat < x.toNat ∨ z.toNat = x.toNat ∨ x.toNat < z.toNat :=
                by omega
              simp [hxz]
              intro hzx'
              omega
            · by_cases hzy : z.toNat < y.toNat
              · have hzx : z.toNat < x.toNat := by omega
                simp [hxz, hzx]
              · have hrec_ab : pyLtChars xs ys = false := by
                  simpa [hxy, hyx] using hab
                have hrec_bc : pyLtChars ys zs = false := by
                  simpa [hyz, hzy] using hbc
                have hzx : ¬ z.toNat < x.toNat := by omega
                simp [hxz, hzx, ih hrec_ab hrec_bc]

theorem pyStrLe_refl (a : String) : pyStrLe a a = true := by
  simp [pyStrLe, pyStrLt, pyLtChars_irrefl]

theorem pyStrLe_trans {a b c : String} (hab : pyStrLe a b = true)
    (hbc : pyStrLe b c = true) : pyStrLe a c = true := by
  simp only [pyStrLe, pyStrLt, Bool.not_eq_true'] at hab hbc ⊢
  exact pyLtChars_false_trans hbc hab

/-! ## Lemmas: ISO dates -/

theorem daysInMonth_le_31 (y m : Nat) : daysInMonth y m ≤ 31 := by
  unfold daysInMonth
  split_ifs <;> omega

theorem parseDateChars_inv {l : List Char} {p : Nat × Nat × Nat}
    (h : parseDateChars l = some p) :
    ∃ a1 a2 a3 a4 a6 a7 a9 a10 : Char,
      l = [a1, a2, a3, a4, '-', a6, a7, '-', a9, a10] ∧
      (48 ≤ a1.toNat ∧ a1.toNat ≤ 57) ∧ (48 ≤ a2.toNat ∧ a2.toNat ≤ 57) ∧
      (48 ≤ a3.toNat ∧ a3.toNat ≤ 57) ∧ (48 ≤ a4.toNat ∧ a4.toNat ≤ 57) ∧
      (48 ≤ a6.toNat ∧ a6.toNat ≤ 57) ∧ (48 ≤ a7.toNat ∧ a7.toNat ≤ 57) ∧
      (48 ≤ a9.toNat ∧ a9.toNat ≤ 57) ∧ (48 ≤ a10.toNat ∧ a10.toNat ≤ 57) ∧
      p = (1000 * digitVal a1 + 100 * digitVal a2 + 10 * digitVal a3 + digitVal a4,
           10 * digitVal a6 + digitVal a7, 10 * digitVal a9 + digitVal a10) ∧
      1 ≤ p.1 ∧ 1 ≤ p.2.1 ∧ p.2.1 ≤ 12 ∧ 1 ≤ p.2.2 ∧ p.2.2 ≤ daysInMonth p.1 p.2.1 := by
  unfold parseDateChars at h
  split at h
  case h_2 => exact absurd h (by simp)
  case h_1 a1 a2 a3 a4 a5 a6 a7 a8 a9 a10 =>
    dsimp only at h
    split at h
    case isFalse => exact absurd h (by simp)
    case isTrue hc =>
      split at h
      case isFalse => exact absurd h (by simp)
      case isTrue hr =>
        simp only [Option.some.injEq] at h
        subst h
        simp only [Bool.and_eq_true, decide_eq_true_eq, isDigitChar] at hc hr
        obtain ⟨⟨⟨⟨⟨⟨⟨⟨⟨hA5, hA8⟩, hA1⟩, hA2⟩, hA3⟩, hA4⟩, hA6⟩, hA7⟩, hA9⟩, hA10⟩ := hc
        subst hA5; subst hA8
        exact ⟨a1, a2, a3, a4, a6, a7, a9, a10, rfl, hA1, hA2, hA3, hA4, hA6, hA7, hA9, hA10,
          rfl, hr.1.1.1.1, hr.1.1.1.2, hr.1.1.2, hr.1.2, hr.2⟩

theorem parseDateChars_valid {l : List Char} {y m d : Nat}
    (h : parseDateChars l = some (y, m, d)) :
    1 ≤ y ∧ 1 ≤ m ∧ m ≤ 12 ∧ 1 ≤ d ∧ d ≤ daysInMonth y m := by
  obtain ⟨_, _, _, _, _, _, _, _, _, _, _, _, _, _, _, _, _, _, hv⟩ := parseDateChars_inv h
  exact hv

theorem leapsBefore_succ (y : Nat) (hy : 1 ≤ y) :
    leapsBefore y = leapsBefore (y - 1) + (if isLeap y then 1 else 0) := by
  unfold leapsBefore isLeap
  by_cases h1 : y % 4 = 0 <;> by_cases h2 : y % 100 = 0 <;> by_cases h3 : y % 400 = 0 <;>
    simp [h1, h2, h3] <;> omega

theorem daysBeforeMonth_add_le (y m d : Nat) (h1 : 1 ≤ m) (h2 : m ≤ 12)
    (hd : d ≤ daysInMonth y m) :
    daysBeforeMonth y m + d ≤ 365 + (if isLeap y then 1 else 0) := by
  by_cases hL : isLeap y = true <;> interval_cases m <;>
    norm_num [daysBeforeMonth, daysInMonth, hL] at hd ⊢ <;> omega

theorem daysBeforeMonth_mono (y m m' : Nat) (h1 : 1 ≤ m) (h2 : m < m') (h3 : m' ≤ 12) :
    daysBeforeMonth y m + daysInMonth y m ≤ daysBeforeMonth y m' := by
  have hm2 : 2 ≤ m' := by omega
  by_cases hL : isLeap y = true <;> interval_cases m' <;> interval_cases m <;>
    norm_num [daysBeforeMonth, daysInMonth, hL]

theorem toOrdinal_lt_of_key_lt {y m d y' m' d' : Nat}
    (hv : 1 ≤ y ∧ 1 ≤ m ∧ m ≤ 12 ∧ 1 ≤ d ∧ d ≤ daysInMonth y m)
    (hv' : 1 ≤ y' ∧ 1 ≤ m' ∧ m' ≤ 12 ∧ 1 ≤ d' ∧ d' ≤ daysInMonth y' m')
    (hk : dateKey (y, m, d) < dateKey (y', m', d')) :
    toOrdinal (y, m, d) < toOrdinal (y', m', d') := by
  obtain ⟨hy1, hm1, hm2, hd1, hd2⟩ := hv
  obtain ⟨hy1', hm1', hm2', hd1', hd2'⟩ := hv'
  have hdim : daysInMonth y m ≤ 31 := daysInMonth_le_31 y m
  have hdim' : daysInMonth y' m' ≤ 31 := daysInMonth_le_31 y' m'
  have hlex : y < y' ∨ (y = y' ∧ (m < m' ∨ (m = m' ∧ d < d'))) := by
    simp only [dateKey] at hk
    omega
  simp only [toOrdinal]
  rcases hlex with hyy | ⟨rfl, hmm | ⟨rfl, hdd⟩⟩
  · have hA : daysBeforeMonth y m + d ≤ 365 + (if isLeap y then 1 else 0) :=
      daysBeforeMonth_add_le y m d hm1 hm2 hd2
    have hB : leapsBefore y = leapsBefore (y - 1) + (if isLeap y then 1 else 0) :=
      leapsBefore_succ y hy1
    have hC : 365 * y + leapsBefore y ≤ 365 * (y' - 1) + leapsBefore (y' - 1) := by
      unfold leapsBefore
      omega
    omega
  · have hA : daysBeforeMonth y m + daysInMonth y m ≤ daysBeforeMonth y m' :=
      daysBeforeMonth_mono y m m' hm1 hmm hm2'
    omega
  · omega

theorem pyLtChars_append (xs : List Char) : ∀ (ys as bs : List Char),
    xs.length = ys.length →
    pyLtChars (xs ++ as) (ys ++ bs) =
      (if pyLtChars xs ys = true then true
       else if pyLtChars ys xs = true then false
       else pyLtChars as bs) := by
  induction xs with
  | nil =>
    intro ys as bs hlen
    cases ys with
    | nil => simp [pyLtChars]
    | cons y ys => simp at hlen
  | cons x xs ih =>
    intro ys as bs hlen
    cases ys with
    | nil => simp at hlen
    | cons y ys =>
      simp only [List.length_cons, Nat.succ.injEq] at hlen
      simp only [List.cons_append, pyLtChars_cons]
      by_cases h1 : x.toNat < y.toNat
      · simp [h1]
      · by_cases h2 : y.toNat < x.toNat
        · simp [h1, h2]
        · rw [if_neg h1, if_neg h2, ih ys as bs hlen]
          simp [h1, h2]

theorem pyLt_twoDigits (a1 a2 b1 b2 : Char)
    (hA1 : 48 ≤ a1.toNat ∧ a1.toNat ≤ 57) (hA2 : 48 ≤ a2.toNat ∧ a2.toNat ≤ 57)
    (hB1 : 48 ≤ b1.toNat ∧ b1.toNat ≤ 57) (hB2 : 48 ≤ b2.toNat ∧ b2.toNat ≤ 57) :
    pyLtChars [a1, a2] [b1, b2] =
      decide (10 * digitVal a1 + digitVal a2 < 10 * digitVal b1 + digitVal b2) := by
  simp only [pyLtChars_cons, pyLtChars, digitVal]
  split_ifs <;> symm
  all_goals first
    | (rw [decide_eq_true_iff]; omega)
    | (rw [decide_eq_false_iff_not]; omega)

theorem pyLt_fourDigits (a1 a2 a3 a4 b1 b2 b3 b4 : Char)
    (hA1 : 48 ≤ a1.toNat ∧ a1.toNat ≤ 57) (hA2 : 48 ≤ a2.toNat ∧ a2.toNat ≤ 57)
    (hA3 : 48 ≤ a3.toNat ∧ a3.toNat ≤ 57) (hA4 : 48 ≤ a4.toNat ∧ a4.toNat ≤ 57)
    (hB1 : 48 ≤ b1.toNat ∧ b1.toNat ≤ 57) (hB2 : 48 ≤ b2.toNat ∧ b2.toNat ≤ 57)
    (hB3 : 48 ≤ b3.toNat ∧ b3.toNat ≤ 57) (hB4 : 48 ≤ b4.toNat ∧ b4.toNat ≤ 57) :
    pyLtChars [a1, a2, a3, a4] [b1, b2, b3, b4] =
      decide (1000 * digitVal a1 + 100 * digitVal a2 + 10 * digitVal a3 + digitVal a4 <
              1000 * digitVal b1 + 100 * digitVal b2 + 10 * digitVal b3 + digitVal b4) := by
  simp only [pyLtChars_cons, pyLtChars, digitVal]
  split_ifs <;> symm
  all_goals first
    | (rw [decide_eq_true_iff]; omega)
    | (rw [decide_eq_false_iff_not]; omega)

theorem pyLtChars_sep (l r : List Char) :
    pyLtChars ('-' :: l) ('-' :: r) = pyLtChars l r := by
  simp [pyLtChars_cons]

theorem pyLtChars_dateKey {l1 l2 : List Char} {p q : Nat × Nat × Nat}
    (h1 : parseDateChars l1 = some p) (h2 : parseDateChars l2 = some q)
    (hlt : pyLtChars l1 l2 = true) : dateKey p < dateKey q := by
  obtain ⟨a1, a2, a3, a4, a6, a7, a9, a10, hl1, hA1, hA2, hA3, hA4, hA6, hA7, hA9, hA10,
    hp, _⟩ := parseDateChars_inv h1
  obtain ⟨b1, b2, b3, b4, b6, b7, b9, b10, hl2, hB1, hB2, hB3, hB4, hB6, hB7, hB9, hB10,
    hq, _⟩ := parseDateChars_inv h2
  subst hl1; subst hl2; subst hp; subst hq
  have e1 : ([a1, a2, a3, a4, '-', a6, a7, '-', a9, a10] : List Char) =
      [a1, a2, a3, a4] ++ ('-' :: ([a6, a7] ++ ('-' :: [a9, a10]))) := rfl
  have e2 : ([b1, b2, b3, b4, '-', b6, b7, '-', b9, b10] : List Char) =
      [b1, b2, b3, b4] ++ ('-' :: ([b6, b7] ++ ('-' :: [b9, b10]))) := rfl
  rw [e1, e2, pyLtChars_append _ _ _ _ (by simp),
    pyLt_fourDigits a1 a2 a3 a4 b1 b2 b3 b4 hA1 hA2 hA3 hA4 hB1 hB2 hB3 hB4,
    pyLt_fourDigits b1 b2 b3 b4 a1 a2 a3 a4 hB1 hB2 hB3 hB4 hA1 hA2 hA3 hA4,
    pyLtChars_sep, pyLtChars_append _ _ _ _ (by simp),
    pyLt_twoDigits a6 a7 b6 b7 hA6 hA7 hB6 hB7,
    pyLt_twoDigits b6 b7 a6 a7 hB6 hB7 hA6 hA7,
    pyLtChars_sep,
    pyLt_twoDigits a9 a10 b9 b10 hA9 hA10 hB9 hB10] at hlt
  simp only [dateKey, digitVal]
  split_ifs at hlt with hc1 hc2 hc3 hc4
  · simp only [decide_eq_true_eq, digitVal] at hc1
    omega
  · simp only [decide_eq_true_eq, not_lt, digitVal] at hc1 hc2 hc3
    omega
  · simp only [decide_eq_true_eq, not_lt, digitVal] at hc1 hc2 hc3 hc4 hlt
    omega

/-- The composite fact the cursor invariant needs: if two strings parse as
dates and the first is not later than the second by ordinal, then Python
never considers the second string smaller. -/
theorem pyStrLt_eq_false_of_ordinal_le {s t : String} {p q : Nat × Nat × Nat}
    (hs : parseDate s = some p) (ht : parseDate t = some q)
    (hord : toOrdinal p ≤ toOrdinal q) : pyStrLt t s = false := by
  cases hval : pyStrLt t s with
  | false => rfl
  | true =>
    exfalso
    have hk : dateKey q < dateKey p := pyLtChars_dateKey ht hs hval
    obtain ⟨y, m, d⟩ := p
    obtain ⟨y', m', d'⟩ := q
    have hlt := toOrdinal_lt_of_key_lt (parseDateChars_valid ht) (parseDateChars_valid hs) hk
    omega

/-! ## Lemmas: the decision cycle state -/

theorem run_ordering_cycle_state (dry_run : Bool) (env : Env) (st : AgentState)
    (cur : String) :
    (run_ordering_cycle dry_run env st cur).1.last_cycle_date = some cur ∧
    (run_ordering_cycle dry_run env st cur).1.sim_start_date = st.sim_start_date ∧
    ((run_ordering_cycle dry_run env st cur).1.last_order_date = st.last_order_date ∨
     (run_ordering_cycle dry_run env st cur).1.last_order_date = some cur) := by
  rcases env with ⟨sold, cands, llm⟩
  unfold run_ordering_cycle
  by_cases hs : sold.length < MIN_SALES_TO_ORDER
  · simp [hs]
  · by_cases hc : cands.isEmpty
    · simp [hs, hc]
    · cases llm with
      | err => simp [hs, hc]
      | ok raw =>
        simp only [hs, hc]
        by_cases hp : dry_run = false ∧
            0 < (purchasedCars cands (select_replacement_cars raw cands
              (minOrder sold.length) (maxOrder sold.length cands.length)).selections).length
        · simp [hs, hc, hp]
        · simp [hs, hc, hp]

theorem cursor_invariant (st : AgentState) (h : Reachable st) :
    optCursorLe st.last_order_date st.last_cycle_date = true := by
  induction h with
  | init => rfl
  | step dry_run env st cur start hst hcur ih =>
    have hst1 : optCursorLe (afterReset st cur start).last_order_date
        (afterReset st cur start).last_cycle_date = true := by
      unfold afterReset
      split_ifs
      · simp [resetState, optCursorLe, pyStrLe_refl]
      · exact ih
    unfold on_date_change
    rcases hlc : (afterReset st cur start).last_cycle_date with _ | lc
    · simpa [hlc] using hst1
    · rcases hp1 : parseDate lc with _ | p1
      · simp only [hlc, hp1]
        simpa [hlc] using hst1
      · rcases hp2 : parseDate cur with _ | p2
        · simp only [hlc, hp1, hp2]
          simpa [hlc] using hst1
        · simp only [hlc, hp1, hp2]
          by_cases hdays : (toOrdinal p2 : Int) - (toOrdinal p1 : Int) < CYCLE_DAYS
          · simp only [hdays, if_pos]
            simpa [hlc] using hst1
          · rw [if_neg hdays]
            obtain ⟨hcyc_lc, hcyc_sim, hcyc_lo⟩ :=
              run_ordering_cycle_state dry_run env (afterReset st cur start) cur
            have hord : toOrdinal p1 ≤ toOrdinal p2 := by
              simp only [CYCLE_DAYS] at hdays
              omega
            have hle_lc_cur : pyStrLe lc cur = true := by
              simp only [pyStrLe]
              rw [pyStrLt_eq_false_of_ordinal_le hp1 hp2 hord]
              rfl
            rcases hcyc_lo with hlo | hlo
            · rcases hlo' : (afterReset st cur start).last_order_date with _ | lo
              · rw [hlo', hlc] at hst1
                simp [optCursorLe] at hst1
              · have hle_lo_lc : pyStrLe lo lc = true := by
                  rw [hlo', hlc] at hst1
                  simpa [optCursorLe] using hst1
                simp only [TickResult.state]
                rw [hcyc_lc, hlo, hlo']
                simpa [optCursorLe] using pyStrLe_trans hle_lo_lc hle_lc_cur
            · simp only [TickResult.state]
              rw [hcyc_lc, hlo]
              simpa [optCursorLe] using pyStrLe_refl cur

/-! ## Lemmas: the correction pass -/

theorem dedupById_cons (s : CarSelection) (rest : List CarSelection) (seen : List Int) :
    dedupById (s :: rest) seen =
      if s.car_id ∈ seen then dedupById rest seen
      else s :: dedupById rest (s.car_id :: seen) := rfl

theorem dedupById_ids_nodup (sels : List CarSelection) :
    ∀ seen : List Int,
      ((dedupById sels seen).map (fun s => s.car_id)).Nodup ∧
      ∀ s ∈ dedupById sels seen, s.car_id ∉ seen := by
  induction sels with
  | nil => intro seen; simp [dedupById]
  | cons s rest ih =>
    intro seen
    rw [dedupById_cons]
    split_ifs with hmem
    · exact ih seen
    · obtain ⟨h1, h2⟩ := ih (s.car_id :: seen)
      refine ⟨?_, ?_⟩
      · simp only [List.map_cons, List.nodup_cons]
        refine ⟨?_, h1⟩
        intro hcontra
        obtain ⟨t, ht, hts⟩ := List.mem_map.mp hcontra
        exact (h2 t ht) (by simp [hts])
      · intro t ht
        rcases List.mem_cons.mp ht with rfl | ht'
        · exact hmem
        · intro hts
          exact (h2 t ht') (by simp [hts])

theorem dedupById_seen_congr (sels : List CarSelection) :
    ∀ seen seen' : List Int, (∀ i, i ∈ seen ↔ i ∈ seen') →
      dedupById sels seen = dedupById sels seen' := by
  induction sels with
  | nil => intro seen seen' _; rfl
  | cons s rest ih =>
    intro seen seen' hiff
    rw [dedupById_cons, dedupById_cons]
    by_cases hmem : s.car_id ∈ seen
    · rw [if_pos hmem, if_pos ((hiff _).mp hmem), ih seen seen' hiff]
    · rw [if_neg hmem, if_neg (fun hc => hmem ((hiff _).mpr hc))]
      rw [ih (s.car_id :: seen) (s.car_id :: seen') (by intro i; simp [hiff i])]

theorem specDedup_go (sels : List CarSelection) :
    ∀ acc : List CarSelection,
      sels.foldl specDedupStep acc =
        acc ++ dedupById sels (acc.map (fun s => s.car_id)) := by
  induction sels with
  | nil => intro acc; simp [dedupById]
  | cons s rest ih =>
    intro acc
    rw [List.foldl_cons]
    by_cases hmem : s.car_id ∈ acc.map (fun t => t.car_id)
    · have hany : (acc.any (fun t => t.car_id == s.car_id)) = true := by
        simp only [List.any_eq_true, beq_iff_eq]
        obtain ⟨t, ht, hts⟩ := List.mem_map.mp hmem
        exact ⟨t, ht, hts⟩
      have hstep : specDedupStep acc s = acc := by
        unfold specDedupStep
        rw [hany]
        simp
      rw [hstep, ih acc, dedupById_cons, if_pos hmem]
    · have hany : (acc.any (fun t => t.car_id == s.car_id)) = false := by
        simp only [List.any_eq_false, beq_iff_eq]
        intro t ht hts
        exact hmem (List.mem_map.mpr ⟨t, ht, hts⟩)
      have hstep : specDedupStep acc s = acc ++ [s] := by
        unfold specDedupStep
        rw [hany]
        simp
      rw [hstep, ih (acc ++ [s]), dedupById_cons, if_neg hmem]
      simp only [List.map_append, List.append_assoc, List.cons_append, List.nil_append,
        List.map_cons, List.map_nil]
      congr 2
      refine dedupById_seen_congr rest _ _ ?_
      intro i
      rw [List.mem_append, List.mem_singleton, List.mem_cons, or_comm]

theorem specDedup_eq_dedupById (sels : List CarSelection) :
    specDedup sels = dedupById sels [] := by
  have h := specDedup_go sels []
  simpa [specDedup] using h

theorem filter_mem_length_le (cands : List SimCar) (sel_ids : List Int)
    (hnodup : (cands.map (fun c => c.id)).Nodup) :
    (cands.filter (fun c => decide (c.id ∈ sel_ids))).length ≤ sel_ids.length := by
  have hsub : ((cands.filter (fun c => decide (c.id ∈ sel_ids))).map (fun c => c.id)) ⊆
      sel_ids := by
    intro x hx
    obtain ⟨c, hc, rfl⟩ := List.mem_map.mp hx
    exact of_decide_eq_true (List.mem_filter.mp hc).2
  have hnd : ((cands.filter (fun c => decide (c.id ∈ sel_ids))).map (fun c => c.id)).Nodup :=
    hnodup.sublist (List.Sublist.map _ (List.filter_sublist _))
  have := (List.subperm_of_subset hnd hsub).length_le
  simpa using this

theorem extras_length_ge (cands : List SimCar) (sel_ids : List Int)
    (hnodup : (cands.map (fun c => c.id)).Nodup) :
    cands.length - sel_ids.length ≤
      (cands.filter (fun c => decide (c.id ∉ sel_ids))).length := by
  have hpart := List.length_eq_length_filter_add (l := cands)
    (fun c => decide (c.id ∈ sel_ids))
  have hsame : (cands.filter (fun c => ! (fun c => decide (c.id ∈ sel_ids)) c)) =
      cands.filter (fun c => decide (c.id ∉ sel_ids)) := by
    apply List.filter_congr
    intro c _
    simp [decide_not]
  rw [hsame] at hpart
  have hle := filter_mem_length_le cands sel_ids hnodup
  omega

theorem select_length_bounds (raw : OrderDecision) (cands : List SimCar) (mn mx : Nat)
    (hmnx : mn ≤ mx) (hx : mx ≤ cands.length)
    (hnodup : (cands.map (fun c => c.id)).Nodup) :
    mn ≤ (select_replacement_cars raw cands mn mx).selections.length ∧
    (select_replacement_cars raw cands mn mx).selections.length ≤ mx := by
  unfold select_replacement_cars
  dsimp only
  split_ifs with h1 h2
  · simp only [List.length_take]
    omega
  · simp only [List.length_append, List.length_map, List.length_take]
    have hkey := extras_length_ge cands
      ((dedupById raw.selections []).map (fun s => s.car_id)) hnodup
    simp only [List.length_map] at hkey
    constructor <;> omega
  · simp only []
    omega

theorem select_truncate (raw : OrderDecision) (cands : List SimCar) (mn mx : Nat)
    (h : mx < (dedupById raw.selections []).length) :
    select_replacement_cars raw cands mn mx =
      { raw with selections := (dedupById raw.selections []).take mx } := by
  unfold select_replacement_cars
  dsimp only
  rw [if_pos h]

theorem select_backfill (raw : OrderDecision) (cands : List SimCar) (mn mx : Nat)
    (h1 : (dedupById raw.selections []).length ≤ mx)
    (h2 : (dedupById raw.selections []).length < mn) :
    select_replacement_cars raw cands mn mx =
      { raw with selections := (dedupById raw.selections [] ++
          ((cands.filter (fun c => decide (c.id ∉
            (dedupById raw.selections []).map (fun s => s.car_id)))).take
              (mn - (dedupById raw.selections []).length)).map
            (fun c => ⟨c.id, syntheticReason⟩)) } := by
  unfold select_replacement_cars
  dsimp only
  rw [if_neg (by omega), if_pos h2]

theorem select_within (raw : OrderDecision) (cands : List SimCar) (mn mx : Nat)
    (h1 : (dedupById raw.selections []).length ≤ mx)
    (h2 : mn ≤ (dedupById raw.selections []).length) :
    select_replacement_cars raw cands mn mx =
      { raw with selections := dedupById raw.selections [] } := by
  unfold select_replacement_cars
  dsimp only
  rw [if_neg (by omega), if_neg (by omega)]

theorem select_mem_of_mem_take (raw : OrderDecision) (cands : List SimCar) (mn mx : Nat)
    (sel : CarSelection) (h : sel ∈ (dedupById raw.selections []).take mx) :
    sel ∈ (select_replacement_cars raw cands mn mx).selections := by
  unfold select_replacement_cars
  dsimp only
  split_ifs with h1 h2
  · exact h
  · exact List.mem_append_left _ (List.mem_of_mem_take h)
  · exact List.mem_of_mem_take h

theorem candidateLookup_isSome (cands : List SimCar) (i : Int) :
    (candidateLookup cands i).isSome = decide (i ∈ cands.map (fun c => c.id)) := by
  unfold candidateLookup
  rcases hfind : List.find? (fun c => c.id == i) cands.reverse with _ | c
  · have hall := List.find?_eq_none.mp hfind
    rw [hfind]
    simp only [Option.isSome_none]
    symm
    rw [decide_eq_false_iff_not]
    intro hmem
    obtain ⟨c, hc, rfl⟩ := List.mem_map.mp hmem
    exact hall c (List.mem_reverse.mpr hc) (by simp)
  · have hpc := List.find?_some hfind
    have hmc := List.mem_of_find?_eq_some hfind
    rw [hfind]
    simp only [Option.isSome_some]
    symm
    rw [decide_eq_true_iff]
    exact List.mem_map.mpr ⟨c, List.mem_reverse.mp hmc, by simpa [beq_iff_eq] using hpc⟩

theorem candidateLookup_eq_none (cands : List SimCar) (i : Int)
    (hmem : i ∉ cands.map (fun c => c.id)) : candidateLookup cands i = none := by
  have h : (candidateLookup cands i).isSome = false := by
    rw [candidateLookup_isSome]
    simpa using hmem
  cases hl : candidateLookup cands i with
  | none => rfl
  | some c => rw [hl] at h; simp at h

theorem purchasedCars_length (cands : List SimCar) (sels : List CarSelection) :
    (purchasedCars cands sels).length =
      (sels.filter (fun s => decide (s.car_id ∈ cands.map (fun c => c.id)))).length := by
  induction sels with
  | nil => rfl
  | cons s rest ih =>
    unfold purchasedCars at ih ⊢
    rw [List.filterMap_cons]
    by_cases hmem : s.car_id ∈ cands.map (fun c => c.id)
    · have hsome : (candidateLookup cands s.car_id).isSome = true := by
        rw [candidateLookup_isSome]
        simpa using hmem
      obtain ⟨c, hc⟩ := Option.isSome_iff_exists.mp hsome
      rw [hc, List.filter_cons_of_pos (by simpa using hmem)]
      simp only [List.length_cons]
      rw [ih]
    · rw [candidateLookup_eq_none cands s.car_id hmem,
        List.filter_cons_of_neg (by simpa using hmem)]
      exact ih

theorem purchasedCars_skip (cands : List SimCar) (sels : List CarSelection) :
    purchasedCars cands sels =
      purchasedCars cands
        (sels.filter (fun s => decide (s.car_id ∈ cands.map (fun c => c.id)))) := by
  induction sels with
  | nil => rfl
  | cons s rest ih =>
    unfold purchasedCars at ih ⊢
    by_cases hmem : s.car_id ∈ cands.map (fun c => c.id)
    · rw [List.filter_cons_of_pos (by simpa using hmem), List.filterMap_cons,
        List.filterMap_cons]
      cases hl : candidateLookup cands s.car_id with
      | none => rw [ih]
      | some c => rw [ih]
    · rw [List.filter_cons_of_neg (by simpa using hmem), List.filterMap_cons,
        candidateLookup_eq_none cands s.car_id hmem]
      exact ih

/-! ## Lemmas: one tick of on_date_change -/

theorem run_ordering_cycle_commits (dry_run : Bool) (env : Env) (st : AgentState)
    (cur : String) :
    ((run_ordering_cycle dry_run env st cur).1.last_order_date =
      (if (run_ordering_cycle dry_run env st cur).2.1 = [] then st.last_order_date
       else some cur)) ∧
    (dry_run = true → (run_ordering_cycle dry_run env st cur).2.1 = []) := by
  rcases env with ⟨sold, cands, llm⟩
  unfold run_ordering_cycle
  by_cases hs : sold.length < MIN_SALES_TO_ORDER
  · simp [hs]
  · by_cases hc : cands.isEmpty
    · simp [hs, hc]
    · cases llm with
      | err => simp [hs, hc]
      | ok raw =>
        simp only [hs, hc, if_neg, if_false, Bool.false_eq_true]
        cases dry_run with
        | true => simp
        | false =>
          simp only [Bool.false_eq_true, if_false]
          rcases hp : purchasedCars cands (select_replacement_cars raw cands
              (minOrder sold.length) (maxOrder sold.length cands.length)).selections
            with _ | ⟨c, rest⟩
          · simp [hp]
          · simp [hp]

theorem on_date_change_state_commits (dry_run : Bool) (env : Env) (st : AgentState)
    (cur start : String) :
    ((on_date_change dry_run env st cur start).state = afterReset st cur start ∧
     (on_date_change dry_run env st cur start).commits = []) ∨
    ((on_date_change dry_run env st cur start).state =
        (run_ordering_cycle dry_run env (afterReset st cur start) cur).1 ∧
     (on_date_change dry_run env st cur start).commits =
        (run_ordering_cycle dry_run env (afterReset st cur start) cur).2.1) := by
  unfold on_date_change
  rcases hlc : (afterReset st cur start).last_cycle_date with _ | lc
  · left
    simp [hlc]
  · rcases hp1 : parseDate lc with _ | p1
    · left
      simp [hlc, hp1]
    · rcases hp2 : parseDate cur with _ | p2
      · left
        simp [hlc, hp1, hp2]
      · by_cases hdays : (toOrdinal p2 : Int) - (toOrdinal p1 : Int) < CYCLE_DAYS
        · left
          simp [hlc, hp1, hp2, hdays]
        · right
          simp [hlc, hp1, hp2, hdays]

theorem resetNeeded_iff (st : AgentState) (cur start : String) :
    resetNeeded st cur start = true ↔
      (st.sim_start_date = none ∨ staleCursor st cur = true ∨
       st.sim_start_date ≠ some start) := by
  unfold resetNeeded
  rcases hsim : st.sim_start_date with _ | s
  · simp
  · simp only [Bool.or_eq_true, Bool.not_eq_true', beq_eq_false_iff_ne, ne_eq,
      Option.some.injEq]
    constructor
    · rintro (h | h)
      · exact Or.inr (Or.inr (by simpa using h))
      · exact Or.inr (Or.inl h)
    · rintro (h | h | h)
      · exact absurd h (by simp)
      · exact Or.inr h
      · exact Or.inl (by simpa using h)

theorem on_date_change_saves_head (dry_run : Bool) (env : Env) (st : AgentState)
    (cur start : String) (hr : resetNeeded st cur start = true) :
    (on_date_change dry_run env st cur start).saves.head? =
      some (resetState start) := by
  have hst1 : afterReset st cur start = resetState start := by
    unfold afterReset
    rw [if_pos hr]
  unfold on_date_change
  dsimp only
  rw [hr, hst1]
  simp only [resetState, if_true]
  rcases hp1 : parseDate start with _ | p1
  · simp [hp1]
  · rcases hp2 : parseDate cur with _ | p2
    · simp [hp1, hp2]
    · simp only [hp1, hp2]
      split_ifs <;> simp

theorem run_ordering_cycle_llm_err (dry_run : Bool) (env : Env) (st : AgentState)
    (cur : String) (herr : env.llm = LLMOutcome.err)
    (hs : ¬ env.sold_cars.length < MIN_SALES_TO_ORDER)
    (hc : env.candidates ≠ []) :
    run_ordering_cycle dry_run env st cur =
      ({ st with last_cycle_date := some cur }, [],
       [{ st with last_cycle_date := some cur }]) := by
  rcases env with ⟨sold, cands, llm⟩
  simp only at herr hs hc
  subst herr
  unfold run_ordering_cycle
  rw [if_neg hs, if_neg (by simpa [List.isEmpty_iff] using hc)]

/-! ## Lemmas: the candidate pool -/

theorem mem_availableNotOwned {market : List SimCar} {dms : List DmsCar} {c : SimCar}
    (h : c ∈ availableNotOwned market dms) :
    c.status = "available" ∧ c.vin ∉ dmsVins dms := by
  unfold availableNotOwned at h
  have h2 := List.mem_filter.mp h
  have h1 := List.mem_filter.mp h2.1
  exact ⟨by simpa using h1.2, by simpa using h2.2⟩

theorem cappedSameMake_sub {sample : List SimCar → Nat → List SimCar}
    (hsub : SampleSub sample) (pool : List SimCar) (sold : List SoldCar) :
    ∀ c ∈ cappedSameMake sample pool sold, c ∈ pool := by
  intro c hc
  unfold cappedSameMake at hc
  dsimp only at hc
  split_ifs at hc with h
  · exact (List.mem_filter.mp (hsub _ _ _ hc)).1
  · exact (List.mem_filter.mp hc).1

theorem cappedSameMake_length {sample : List SimCar → Nat → List SimCar}
    (hlen : SampleLen sample) (pool : List SimCar) (sold : List SoldCar) :
    (cappedSameMake sample pool sold).length ≤ 60 := by
  unfold cappedSameMake
  dsimp only
  split_ifs with h
  · rw [hlen _ 60 (by omega)]
  · omega

theorem get_candidate_pool_excludes_dms {sample : List SimCar → Nat → List SimCar}
    (hsub : SampleSub sample) (sold : List SoldCar) (dms : List DmsCar)
    (market : List SimCar) (max_candidates : Nat) :
    ∀ c ∈ get_candidate_pool sample sold dms market max_candidates,
      c.vin ∉ dmsVins dms := by
  intro c hc
  unfold get_candidate_pool at hc
  dsimp only at hc
  rcases List.mem_append.mp hc with hc1 | hc2
  · exact (mem_availableNotOwned (cappedSameMake_sub hsub _ _ c hc1)).2
  · split_ifs at hc2 with hcond
    · have hother := hsub _ _ _ hc2
      have := (List.mem_filter.mp hother).1
      exact (mem_availableNotOwned this).2
    · simp at hc2

theorem get_candidate_pool_length {sample : List SimCar → Nat → List SimCar}
    (hlen : SampleLen sample) (sold : List SoldCar)
    (dms : List DmsCar) (market : List SimCar) (max_candidates : Nat) :
    (get_candidate_pool sample sold dms market max_candidates).length ≤
      max max_candidates 60 := by
  unfold get_candidate_pool
  dsimp only
  have hcap := cappedSameMake_length hlen (availableNotOwned market dms) sold
  rw [List.length_append]
  split_ifs with hcond
  · obtain ⟨hrem, hother⟩ := hcond
    have hkle : ((min ((max_candidates : Int) -
        (cappedSameMake sample (availableNotOwned market dms) sold).length)
        ((otherPool (availableNotOwned market dms) sold).length : Int)).toNat) ≤
        (otherPool (availableNotOwned market dms) sold).length := by
      omega
    rw [hlen _ _ hkle]
    omega
  · simp
    omega

/-! ## Lemmas: state loading -/

theorem foldl_get_eq_reverse_find (k : String) (fields : List (String × Json)) :
    ∀ acc : Option Json,
      fields.foldl (fun acc p => if p.1 = k then some p.2 else acc) acc =
        (match fields.reverse.find? (fun p => p.1 == k) with
         | some p => some p.2
         | none => acc) := by
  induction fields with
  | nil => intro acc; rfl
  | cons f fs ih =>
    intro acc
    rw [List.foldl_cons, ih]
    rw [List.reverse_cons, List.find?_append]
    rcases hfs : fs.reverse.find? (fun p => p.1 == k) with _ | q
    · rw [hfs]
      by_cases hf : f.1 = k
      · rw [if_pos hf, List.find?_cons_of_pos _ (by simpa using hf)]
        simp [Option.none_or]
      · rw [if_neg hf, List.find?_cons_of_neg _ (by simpa using hf)]
        simp [Option.none_or]
    · rw [hfs]
      rfl

theorem pyDictGet_eq_specFieldGet (fields : List (String × Json)) (k : String) :
    pyDictGet fields k = specFieldGet fields k := by
  unfold pyDictGet specFieldGet
  rw [foldl_get_eq_reverse_find]
  rcases hfind : fields.reverse.find? (fun p => p.1 == k) with _ | q
  · rw [hfind]
    rfl
  · rw [hfind]
    rfl

/-! ## Sampler fixtures -/

theorem takeSampler_sub : SampleSub takeSampler := by
  intro xs k c hc
  exact List.mem_of_mem_take hc

theorem takeSampler_len : SampleLen takeSampler := by
  intro xs k h
  simp [takeSampler, List.length_take, Nat.min_eq_left h]

/-! ## The claims -/

/-- C1 counterexample: with the cycle's own bounds at `sold_count = 5` and a
one-car pool, `min_order = 3 > 1 = max_order`, and the corrected selection
(length 1 after backfill exhausts the pool) cannot lie in `[3, 1]`. -/
theorem C1_counterexample :
    ¬ (minOrder 5 ≤ (select_replacement_cars ⟨[], "match sales"⟩ [candFixture 1]
          (minOrder 5) (maxOrder 5 1)).selections.length ∧
       (select_replacement_cars ⟨[], "match sales"⟩ [candFixture 1]
          (minOrder 5) (maxOrder 5 1)).selections.length ≤ maxOrder 5 1) := by
  decide

/-- C1 (amended): for bounds as computed by the cycle — `sold_count ≥ 2`, a
non-empty pool with pairwise-distinct candidate ids, and
`sold_count ≤ pool_size + 2` (equivalently `min_order ≤ max_order`) — the
corrected selection count always lies in `[min_order, max_order]`, for any raw
service output. -/
theorem C1_selection_count_in_bounds (raw : OrderDecision) (cands : List SimCar)
    (s : Nat) (hs : MIN_SALES_TO_ORDER ≤ s) (hc : cands ≠ [])
    (hfit : s ≤ cands.length + 2) (hnodup : (cands.map (fun c => c.id)).Nodup) :
    minOrder s ≤ (select_replacement_cars raw cands (minOrder s)
        (maxOrder s cands.length)).selections.length ∧
    (select_replacement_cars raw cands (minOrder s)
        (maxOrder s cands.length)).selections.length ≤ maxOrder s cands.length := by
  have hpos : 1 ≤ cands.length := List.length_pos.mpr hc
  have h1 : minOrder s ≤ maxOrder s cands.length := by
    unfold minOrder maxOrder MIN_SALES_TO_ORDER at *
    omega
  have h2 : maxOrder s cands.length ≤ cands.length := by
    unfold maxOrder
    omega
  exact select_length_bounds raw cands _ _ h1 h2 hnodup

/-- C1 witness: the amended bound at a concrete input. -/
theorem C1_witness :
    minOrder 3 ≤ (select_replacement_cars ⟨[], "s"⟩ [candFixture 1, candFixture 2]
        (minOrder 3) (maxOrder 3 2)).selections.length ∧
    (select_replacement_cars ⟨[], "s"⟩ [candFixture 1, candFixture 2]
        (minOrder 3) (maxOrder 3 2)).selections.length ≤ maxOrder 3 2 :=
  C1_selection_count_in_bounds ⟨[], "s"⟩ [candFixture 1, candFixture 2] 3
    (by decide) (by decide) (by decide) (by decide)

/-- C2: in every tick, `last_order_date` is set to the current date exactly
when the tick's committed purchases are non-empty, and is otherwise left as
the post-reset-block value; dry-run ticks never commit a purchase. -/
theorem C2_last_order_advances_iff (dry_run : Bool) (env : Env) (st : AgentState)
    (cur start : String) :
    ((on_date_change dry_run env st cur start).state.last_order_date =
      if (on_date_change dry_run env st cur start).commits = []
      then (afterReset st cur start).last_order_date else some cur) ∧
    (dry_run = true → (on_date_change dry_run env st cur start).commits = []) := by
  rcases on_date_change_state_commits dry_run env st cur start with ⟨hst, hcm⟩ | ⟨hst, hcm⟩
  · rw [hst, hcm]
    simp
  · rw [hst, hcm]
    exact run_ordering_cycle_commits dry_run env (afterReset st cur start) cur

/-- C2 witness: a dry-run tick commits nothing. -/
theorem C2_witness :
    (on_date_change true envNone blankState "2026-01-05" "2026-01-01").commits = [] :=
  (C2_last_order_advances_iff true envNone blankState "2026-01-05" "2026-01-01").2 rfl

/-- C3: the reset block replaces the state by the all-start-date state exactly
when the stored identity is unset, the stored cycle cursor is ahead of the
current date, or the reported start date differs from the stored one; on a
reset the first persisted state is the reset state; otherwise the state
enters the threshold check unchanged. -/
theorem C3_reset_rule (dry_run : Bool) (env : Env) (st : AgentState)
    (cur start : String) :
    (afterReset st cur start =
      if st.sim_start_date = none ∨ staleCursor st cur = true ∨
          st.sim_start_date ≠ some start
      then resetState start else st) ∧
    ((st.sim_start_date = none ∨ staleCursor st cur = true ∨
        st.sim_start_date ≠ some start) →
      (on_date_change dry_run env st cur start).saves.head? =
        some (resetState start)) := by
  constructor
  · unfold afterReset
    by_cases h : st.sim_start_date = none ∨ staleCursor st cur = true ∨
        st.sim_start_date ≠ some start
    · rw [if_pos ((resetNeeded_iff st cur start).mpr h), if_pos h]
    · rw [if_neg (fun hc => h ((resetNeeded_iff st cur start).mp hc)), if_neg h]
  · intro h
    exact on_date_change_saves_head dry_run env st cur start
      ((resetNeeded_iff st cur start).mpr h)

/-- C3 witness: a first run (unset identity) resets and persists the reset
state first. -/
theorem C3_witness :
    (on_date_change false envNone blankState "2026-03-01" "2026-02-01").saves.head? =
      some (resetState "2026-02-01") :=
  (C3_reset_rule false envNone blankState "2026-03-01" "2026-02-01").2 (Or.inl rfl)

/-- C4: in every state reachable from the blank initial state by ticks whose
current date is a valid ISO date string, `last_order_date ≤ last_cycle_date`
(Python string order on the stored cursors). -/
theorem C4_last_order_le_last_cycle (st : AgentState) (h : Reachable st) :
    optCursorLe st.last_order_date st.last_cycle_date = true :=
  cursor_invariant st h

/-- C4 witness: the invariant at a concrete reachable state. -/
theorem C4_witness :
    optCursorLe
      (on_date_change false envNone blankState "2026-01-05" "2026-01-01").state.last_order_date
      (on_date_change false envNone blankState "2026-01-05" "2026-01-01").state.last_cycle_date
      = true :=
  C4_last_order_le_last_cycle _
    (Reachable.step false envNone blankState "2026-01-05" "2026-01-01"
      Reachable.init (by decide))

/-- C5 counterexample: with cycle bounds `[8, 2]` (`sold_count = 10`, pool of
2) and three distinct raw selections, the deduplicated count (3) is below
`min_order` (8) and unselected candidates exist, yet the code truncates only
and backfills nothing — no selection carries the synthetic rationale — because
the backfill branch is an `elif` on the truncation branch. -/
theorem C5_counterexample :
    (dedupById [⟨1, "a"⟩, ⟨2, "b"⟩, ⟨3, "c"⟩] []).length < minOrder 10 ∧
    (select_replacement_cars ⟨[⟨1, "a"⟩, ⟨2, "b"⟩, ⟨3, "c"⟩], "s"⟩
        [candFixture 5, candFixture 6] (minOrder 10) (maxOrder 10 2)).selections =
      [⟨1, "a"⟩, ⟨2, "b"⟩] ∧
    ∀ sel ∈ (select_replacement_cars ⟨[⟨1, "a"⟩, ⟨2, "b"⟩, ⟨3, "c"⟩], "s"⟩
        [candFixture 5, candFixture 6] (minOrder 10) (maxOrder 10 2)).selections,
      sel.reasoning ≠ syntheticReason := by
  decide

/-- C5 (amended): the correction pass deduplicates by candidate id preserving
first occurrences (equal to the spec-side fold), then: if the deduplicated
count exceeds `max_order` it truncates to the first `max_order` entries (and
performs no backfill even if that leaves the count below `min_order`);
otherwise, if the count is below `min_order`, it backfills with unselected
candidates in pool order, up to the shortfall, tagged with the synthetic
rationale; otherwise it returns the deduplicated list unchanged. -/
theorem C5_correction_pass_stages (raw : OrderDecision) (cands : List SimCar)
    (mn mx : Nat) :
    (specDedup raw.selections = dedupById raw.selections []) ∧
    (mx < (dedupById raw.selections []).length →
      select_replacement_cars raw cands mn mx =
        { raw with selections := (dedupById raw.selections []).take mx }) ∧
    ((dedupById raw.selections []).length ≤ mx →
     (dedupById raw.selections []).length < mn →
      select_replacement_cars raw cands mn mx =
        { raw with selections := (dedupById raw.selections [] ++
            ((cands.filter (fun c => decide (c.id ∉
              (dedupById raw.selections []).map (fun s => s.car_id)))).take
                (mn - (dedupById raw.selections []).length)).map
              (fun c => ⟨c.id, syntheticReason⟩)) }) ∧
    ((dedupById raw.selections []).length ≤ mx →
     mn ≤ (dedupById raw.selections []).length →
      select_replacement_cars raw cands mn mx =
        { raw with selections := dedupById raw.selections [] }) :=
  ⟨specDedup_eq_dedupById raw.selections,
   select_truncate raw cands mn mx,
   select_backfill raw cands mn mx,
   select_within raw cands mn mx⟩

/-- C5 witness: the truncation stage at a concrete input. -/
theorem C5_witness :
    select_replacement_cars ⟨[⟨1, "a"⟩, ⟨2, "b"⟩], "s"⟩ [] 1 1 = ⟨[⟨1, "a"⟩], "s"⟩ := by
  have h := (C5_correction_pass_stages ⟨[⟨1, "a"⟩, ⟨2, "b"⟩], "s"⟩ [] 1 1).2.1 (by decide)
  rw [h]
  rfl

/-- C6: for every lot-inventory contents, market contents, sold list, size cap
and sampling outcome, no vehicle of the candidate pool has a VIN present in
the lot-inventory store (under any status). -/
theorem C6_pool_never_contains_lot_vin (sample : List SimCar → Nat → List SimCar)
    (hsub : SampleSub sample) (sold : List SoldCar) (dms : List DmsCar)
    (market : List SimCar) (max_candidates : Nat) :
    ∀ c ∈ get_candidate_pool sample sold dms market max_candidates,
      c.vin ∉ dmsVins dms :=
  get_candidate_pool_excludes_dms hsub sold dms market max_candidates

/-- C6 witness: at a concrete store state and sampler, the pooled car's VIN is
not on the lot. -/
theorem C6_witness :
    (candFixture 1).vin ∉ dmsVins [⟨"VIND", "sold"⟩] :=
  C6_pool_never_contains_lot_vin takeSampler takeSampler_sub [] [⟨"VIND", "sold"⟩]
    [candFixture 1] 80 (candFixture 1) (by decide)

/-- C7 counterexample: with `max_candidates = 10` and 61 same-make available
cars, the same-make portion is sampled down to 60 and returned whole (the
remaining-slots computation goes negative), so the pool has 60 > 10 entries —
the claimed bound fails for this input. -/
theorem C7_counterexample :
    ¬ ((get_candidate_pool takeSampler [soldFixture] [] bigMarket 10).length ≤ 10) := by
  have h : (get_candidate_pool takeSampler [soldFixture] [] bigMarket 10).length = 60 := by
    rfl
  omega

/-- C7 (amended): for every input and sampling outcome, the pool has at most
`max max_candidates 60` entries — hence at most `max_candidates` whenever
`max_candidates ≥ 60`, in particular 80 by default — and the same-make portion
never exceeds 60 entries before the remaining slots are filled. -/
theorem C7_pool_size_bounds (sample : List SimCar → Nat → List SimCar)
    (hlen : SampleLen sample) (sold : List SoldCar) (dms : List DmsCar)
    (market : List SimCar) (max_candidates : Nat) :
    (get_candidate_pool sample sold dms market max_candidates).length ≤
      max max_candidates 60 ∧
    (cappedSameMake sample (availableNotOwned market dms) sold).length ≤ 60 :=
  ⟨get_candidate_pool_length hlen sold dms market max_candidates,
   cappedSameMake_length hlen (availableNotOwned market dms) sold⟩

/-- C7 witness: the amended bound at a concrete input. -/
theorem C7_witness :
    (get_candidate_pool takeSampler [soldFixture] [] bigMarket 10).length ≤
      max 10 60 ∧
    (cappedSameMake takeSampler (availableNotOwned bigMarket []) [soldFixture]).length ≤ 60 :=
  C7_pool_size_bounds takeSampler takeSampler_len [soldFixture] [] bigMarket 10

/-- C8: when the selection-service call raises in a cycle that reached it
(enough sales, non-empty pool), the cycle advances and persists only
`last_cycle_date`, leaves `last_order_date` unchanged (so the sold-since
cursor still counts the accumulated sales), and commits no purchase. -/
theorem C8_service_failure_recovery (dry_run : Bool) (env : Env) (st : AgentState)
    (cur : String) (herr : env.llm = LLMOutcome.err)
    (hs : MIN_SALES_TO_ORDER ≤ env.sold_cars.length) (hc : env.candidates ≠ []) :
    run_ordering_cycle dry_run env st cur =
      ({ st with last_cycle_date := some cur }, [],
       [{ st with last_cycle_date := some cur }]) ∧
    ({ st with last_cycle_date := some cur } : AgentState).last_order_date =
      st.last_order_date :=
  ⟨run_ordering_cycle_llm_err dry_run env st cur herr (by omega) hc, rfl⟩

/-- C8 witness: a failed service call at a concrete state advances only the
cycle cursor. -/
theorem C8_witness :
    run_ordering_cycle false ⟨[soldFixture, soldFixture], [candFixture 1],
        LLMOutcome.err⟩ blankState "2026-01-09" =
      ({ blankState with last_cycle_date := some "2026-01-09" }, [],
       [{ blankState with last_cycle_date := some "2026-01-09" }]) :=
  (C8_service_failure_recovery false ⟨[soldFixture, soldFixture], [candFixture 1],
      LLMOutcome.err⟩ blankState "2026-01-09" rfl (by decide) (by decide)).1

/-- C9 counterexample: `load_state` raises on a state file holding valid JSON
that is not an object (`42` — `AttributeError` from `data.get` is not in the
caught tuple), and a malformed field value is passed through rather than
defaulted. -/
theorem C9_counterexample :
    load_state (StateFile.valid (Json.num 42)) = LoadResult.raised ∧
    load_state (StateFile.valid (Json.obj [("sim_start_date", Json.num 5)])) =
      LoadResult.ok ⟨Json.num 5, Json.null, Json.null⟩ :=
  ⟨rfl, rfl⟩

/-- C9 (amended): `load_state` returns the all-None state when the file is
absent or corrupt; when the file parses to a JSON object it never raises and
each missing field is defaulted to null individually (last duplicate key
wins) while present values are passed through unvalidated; when the file
parses to valid non-object JSON, `load_state` raises. -/
theorem C9_load_state_behaviour :
    (load_state StateFile.absent = LoadResult.ok ⟨Json.null, Json.null, Json.null⟩) ∧
    (load_state StateFile.corrupt = LoadResult.ok ⟨Json.null, Json.null, Json.null⟩) ∧
    (∀ fields, load_state (StateFile.valid (Json.obj fields)) =
      LoadResult.ok ⟨specFieldGet fields "sim_start_date",
        specFieldGet fields "last_cycle_date",
        specFieldGet fields "last_order_date"⟩) ∧
    (∀ j : Json, (∀ fields, j ≠ Json.obj fields) →
      load_state (StateFile.valid j) = LoadResult.raised) := by
  refine ⟨rfl, rfl, ?_, ?_⟩
  · intro fields
    have hred : load_state (StateFile.valid (Json.obj fields)) =
        LoadResult.ok ⟨pyDictGet fields "sim_start_date",
          pyDictGet fields "last_cycle_date", pyDictGet fields "last_order_date"⟩ := rfl
    rw [hred, pyDictGet_eq_specFieldGet, pyDictGet_eq_specFieldGet,
      pyDictGet_eq_specFieldGet]
  · intro j hj
    cases j with
    | null => rfl
    | bool b => rfl
    | num n => rfl
    | str s => rfl
    | arr xs => rfl
    | obj fields => exact absurd rfl (hj fields)

/-- C9 witness: a valid non-object file raises. -/
theorem C9_witness :
    load_state (StateFile.valid (Json.str "oops")) = LoadResult.raised :=
  C9_load_state_behaviour.2.2.2 (Json.str "oops") (fun _ h => Json.noConfusion h)

/-- C10 counterexample: a selection with unknown `car_id` does not always
survive into the returned decision — here truncation to `max_order = 1`
removes it although the pass never checked pool membership. -/
theorem C10_counterexample :
    ((⟨99, "pick"⟩ : CarSelection).car_id ∉ [candFixture 1].map (fun c => c.id)) ∧
    (⟨99, "pick"⟩ : CarSelection) ∈
      (⟨[⟨1, "r"⟩, ⟨99, "pick"⟩], "s"⟩ : OrderDecision).selections ∧
    (⟨99, "pick"⟩ : CarSelection) ∉
      (select_replacement_cars ⟨[⟨1, "r"⟩, ⟨99, "pick"⟩], "s"⟩ [candFixture 1]
        (minOrder 2) (maxOrder 2 1)).selections := by
  decide

/-- C10 (amended): the correction pass never checks selections against the
candidate pool — for every pool, any selection that is the first occurrence of
its id and lies within the first `max_order` deduplicated entries survives
into the returned decision; an unknown id is discarded only by the
orchestrator's purchase loop, which skips it without counting it as a
purchase. -/
theorem C10_unknown_ids_survive (raw : OrderDecision) (cands : List SimCar)
    (mn mx : Nat) (sels : List CarSelection) :
    (∀ sel ∈ (dedupById raw.selections []).take mx,
      sel ∈ (select_replacement_cars raw cands mn mx).selections) ∧
    (purchasedCars cands sels =
      purchasedCars cands
        (sels.filter (fun s => decide (s.car_id ∈ cands.map (fun c => c.id))))) ∧
    ((purchasedCars cands sels).length =
      (sels.filter (fun s => decide (s.car_id ∈ cands.map (fun c => c.id)))).length) :=
  ⟨fun sel h => select_mem_of_mem_take raw cands mn mx sel h,
   purchasedCars_skip cands sels,
   purchasedCars_length cands sels⟩

/-- C10 witness: a selection whose id is in no pool survives the pass at a
concrete input. -/
theorem C10_witness :
    (⟨99, "pick"⟩ : CarSelection) ∈
      (select_replacement_cars ⟨[⟨99, "pick"⟩], "s"⟩ [candFixture 1] 1 1).selections :=
  (C10_unknown_ids_survive ⟨[⟨99, "pick"⟩], "s"⟩ [candFixture 1] 1 1 []).1
    ⟨99, "pick"⟩ (by decide)
